import Mathlib

/-!
Verification of the reference/citation management core of the
RevisaoSistematica PRISMA tool (`reference_manager.py`), as a shallow
embedding in Lean 4.  Strings are modelled as Lean `String`/`List Char`;
Python dicts (which preserve insertion order) are modelled as association
lists; Python `None`-returning fallible functions return `Option`.
-/

/-! ## Citation token codec

The source scans text with the regular expression `\[(\d+(?:,\d+)*)\]`
(`re.findall` in `reorder_references_by_citation`, `re.sub` in
`update_citations_in_text`) and converts each comma separated group to an
integer with `int`.  `scanGroup` is the embedding of that pattern: it is
run on the characters following a literal `[` once the first digit has
been seen, accumulating the current number and the list of numbers of the
token; it succeeds exactly when the regular expression matches, returning
the parsed ids and the characters following the closing `]`.
-/

def scanGroup : List Char → Nat → List Nat → Option (List Nat × List Char)
  | [], _, _ => none
  | c :: rest, cur, acc =>
    if c.isDigit then scanGroup rest (cur * 10 + (c.toNat - 48)) acc
    else if c = ']' then some (acc ++ [cur], rest)
    else if c = ',' then
      match rest with
      | [] => none
      | d :: rest' => if d.isDigit then scanGroup rest' (d.toNat - 48) (acc ++ [cur]) else none
    else none

/-- Attempt to match the body of a citation token (the part after `[`):
one or more digits, then `(,digits)*`, then `]`. -/
def matchToken : List Char → Option (List Nat × List Char)
  | [] => none
  | c :: rest => if c.isDigit then scanGroup rest (c.toNat - 48) [] else none

/-- `int` applied to a string of decimal digit characters. -/
def parseNat (g : List Char) : Nat :=
  g.foldl (fun n c => n * 10 + (c.toNat - 48)) 0

/-- Decimal digits of a natural number, via a fuel parameter that makes the
definition structurally recursive; `natDigits` supplies fuel `n`, which is
always sufficient since `n / 10` shrinks much faster than `n - 1`. -/
def natDigitsAux : Nat → Nat → List Char → List Char
  | 0, _, acc => acc
  | f + 1, n, acc =>
    if n = 0 then acc
    else natDigitsAux f (n / 10) (Char.ofNat (48 + n % 10) :: acc)

/-- Decimal representation of a natural number (Python `str`). -/
def natDigits (n : Nat) : List Char :=
  if n = 0 then ['0'] else natDigitsAux n n []

/-- Tail of a comma separated group list: `,g₁,g₂,…` flattened. -/
def joinTail : List (List Char) → List Char
  | [] => []
  | g :: gs => ',' :: g ++ joinTail gs

/-- Comma separated concatenation of groups (`",".join`). -/
def joinGroups : List (List Char) → List Char
  | [] => []
  | g :: gs => g ++ joinTail gs

/-- The characters of a citation token built from digit groups. -/
def tokenChars (gs : List (List Char)) : List Char :=
  '[' :: joinGroups gs ++ [']']

/-- Dictionary lookup in an association list (`id_mapping[old_id]` when
`old_id in id_mapping`). -/
def lookupId (m : List (Nat × Nat)) (i : Nat) : Option Nat :=
  (m.find? (fun q => q.1 == i)).map Prod.snd

/-- Map an id through the mapping, keeping unmapped ids unchanged
(the `if old_id in id_mapping … else` branch of `replace_citation`). -/
def mapId (m : List (Nat × Nat)) (i : Nat) : Nat :=
  (lookupId m i).getD i

/-- Python `list.sort()` for a list of naturals: the ascending sorted
permutation. -/
def sortIds (l : List Nat) : List Nat :=
  List.insertionSort (· ≤ ·) l

/-- The inner `replace_citation` of `update_citations_in_text`: map every
id of the token through the mapping (unmapped ids pass through), then sort
ascending.  Duplicates are kept: the source sorts a list, it does not build
a set. -/
def replace_citation (id_mapping : List (Nat × Nat)) (ref_ids : List Nat) : List Nat :=
  sortIds (ref_ids.map (mapId id_mapping))

/-- Render a token from a list of ids: `f"[{','.join(map(str, new_ids))}]"`. -/
def renderIds (ids : List Nat) : List Char :=
  tokenChars (ids.map natDigits)

/-- One left-to-right pass of `re.sub(r'\[(\d+(?:,\d+)*)\]', replace_citation, text)`.
The fuel argument (`rewriteChars` passes the text length) only serves to
make the recursion structural; it never runs out because each step consumes
at least one character. -/
def rewriteAux (id_mapping : List (Nat × Nat)) : Nat → List Char → List Char
  | _, [] => []
  | 0, cs => cs
  | n + 1, c :: cs =>
    if c = '[' then
      match matchToken cs with
      | some (ref_ids, after) =>
          renderIds (replace_citation id_mapping ref_ids) ++ rewriteAux id_mapping n after
      | none => c :: rewriteAux id_mapping n cs
    else c :: rewriteAux id_mapping n cs

def rewriteChars (id_mapping : List (Nat × Nat)) (cs : List Char) : List Char :=
  rewriteAux id_mapping cs.length cs

/-- `update_citations_in_text(sections_content, id_mapping)`: rewrite the
citation tokens of every section's text through the id mapping. -/
def update_citations_in_text (sections_content : List (String × String))
    (id_mapping : List (Nat × Nat)) : List (String × String) :=
  sections_content.map (fun p => (p.1, String.mk (rewriteChars id_mapping p.2.data)))

/-- `re.findall(r'\[(\d+(?:,\d+)*)\]', text)` followed by splitting each
group on commas and parsing: the id lists of all citation tokens, in
left-to-right order.  Fuel as in `rewriteAux`. -/
def findAux : Nat → List Char → List (List Nat)
  | _, [] => []
  | 0, _ => []
  | n + 1, c :: cs =>
    if c = '[' then
      match matchToken cs with
      | some (ref_ids, after) => ref_ids :: findAux n after
      | none => findAux n cs
    else findAux n cs

def findTokens (cs : List Char) : List (List Nat) :=
  findAux cs.length cs

/-- Adjacent-pairs ascending check for a list of naturals. -/
def sortedLeB : List Nat → Bool
  | [] => true
  | [_] => true
  | a :: b :: t => a ≤ b && sortedLeB (b :: t)

/-- A text is in normalized citation form with respect to a key set when
every citation token it contains lists ids belonging to the key set, in
ascending order, written without leading zeros (i.e. the token span is
exactly the rendering of its parsed ids).  Fuel as in `rewriteAux`. -/
def normAux (keys : List Nat) : Nat → List Char → Bool
  | _, [] => true
  | 0, _ => true
  | n + 1, c :: cs =>
    if c = '[' then
      match matchToken cs with
      | some (ref_ids, after) =>
          ref_ids.all (fun i => i ∈ keys) && sortedLeB ref_ids &&
          (c :: cs == renderIds ref_ids ++ after) && normAux keys n after
      | none => normAux keys n cs
    else normAux keys n cs

def normChars (keys : List Nat) (cs : List Char) : Bool :=
  normAux keys cs.length cs

/-! ## Vancouver formatting helpers (`format_manual_vancouver`)

Python string primitives are re-implemented on character lists so that all
definitions are structurally recursive and computable by the kernel.
-/

/-- Python `str.strip()`. -/
def pyStrip (s : String) : String :=
  String.mk (((s.data.dropWhile Char.isWhitespace).reverse.dropWhile Char.isWhitespace).reverse)

/-- Python `str.rstrip(',')`. -/
def rstripCommas (s : String) : String :=
  String.mk ((s.data.reverse.dropWhile (fun c => c = ',')).reverse)

/-- Python `str.split()` (split on whitespace runs, dropping empty pieces). -/
def splitWSAux : List Char → List Char → List String
  | [], acc => if acc.isEmpty then [] else [String.mk acc.reverse]
  | c :: rest, acc =>
    if c.isWhitespace then
      if acc.isEmpty then splitWSAux rest []
      else String.mk acc.reverse :: splitWSAux rest []
    else splitWSAux rest (c :: acc)

def pySplit (s : String) : List String :=
  splitWSAux s.data []

/-- Python `re.split(r'[,;]|and|&', authors)`: split on a comma, a
semicolon, an ampersand, or the literal substring `and`, trying the
alternatives at each position from left to right. -/
def splitAuthorsAux : List Char → List Char → List String
  | [], acc => [String.mk acc.reverse]
  | 'a' :: 'n' :: 'd' :: rest, acc => String.mk acc.reverse :: splitAuthorsAux rest []
  | c :: rest, acc =>
    if c = ',' ∨ c = ';' ∨ c = '&' then
      String.mk acc.reverse :: splitAuthorsAux rest []
    else splitAuthorsAux rest (c :: acc)

def splitAuthors (authors : String) : List String :=
  splitAuthorsAux authors.data []

/-- Python `n[0] + '.'` for a nonempty name part (empty parts are filtered
out before this is applied; on an empty string it yields `""`). -/
def firstCharDot (n : String) : String :=
  match n.data with
  | [] => ""
  | c :: _ => String.mk [c, '.']

/-- Python `" ".join(parts)` / `",".join(parts)`. -/
def joinWith (sep : String) : List String → String
  | [] => ""
  | [s] => s
  | s :: rest => s ++ sep ++ joinWith sep rest

/-- The author loop of `format_manual_vancouver`: for each enumerated
author, strip it, skip it when blank or when it has fewer than two
whitespace separated parts, render `family initials, ` for indices below
six, render `et al. ` and stop at index six, and silently skip authors
past index six. -/
def format_author_loop : Nat → List String → String
  | _, [] => ""
  | i, full :: rest =>
    let fn := pyStrip full
    if fn = "" then format_author_loop (i + 1) rest
    else
      let parts := pySplit fn
      if parts.length ≥ 2 then
        let family := parts.getLastD ""
        let inits := String.join ((parts.dropLast.filter (fun n => n ≠ "")).map firstCharDot)
        if i < 6 then family ++ " " ++ inits ++ ", " ++ format_author_loop (i + 1) rest
        else if i = 6 then "et al. "
        else format_author_loop (i + 1) rest
      else format_author_loop (i + 1) rest

/-- `format_manual_vancouver(authors, title, journal, year, volume, issue, pages, doi)`. -/
def format_manual_vancouver (authors : List String) (title journal year volume issue pages doi : String) : String :=
  let author_str := rstripCommas (pyStrip (format_author_loop 0 authors))
  let parts1 : List String :=
    (if author_str ≠ "" then [author_str] else []) ++
    (if title ≠ "" then [title ++ "."] else []) ++
    (if journal ≠ "" then [journal ++ "."] else [])
  let parts2 : List String :=
    if year ≠ "" then
      let vol_info :=
        year ++
        (if volume ≠ "" then ";" ++ volume ++ (if issue ≠ "" then "(" ++ issue ++ ")" else "") else "") ++
        (if pages ≠ "" then ":" ++ pages else "") ++ "."
      parts1 ++ [vol_info]
    else parts1
  let parts3 : List String := if doi ≠ "" then parts2 ++ ["doi:" ++ doi] else parts2
  joinWith " " parts3

/-! ## Reference store and citation index (`class ReferenceManager`) -/

/-- One bibliographic entry (`ref_data` dictionary).  The `metadata` /
`manual_data` payloads play no role in the verified logic and are not
modelled. -/
structure Reference where
  id : Nat
  formatted : String
  doi : String
  source_type : String
deriving DecidableEq, Repr

/-- The mutable state of a `ReferenceManager`: the reference list, the
per-section citation lists (`section_name -> [ref_ids]`, an insertion
ordered dict modelled as an association list) and the global first-citation
order. -/
structure RefManager where
  references : List Reference
  citations : List (String × List Nat)
  citation_order : List Nat
deriving DecidableEq, Repr

/-- `get_reference_by_id`: first reference with the given id, if any. -/
def get_reference_by_id (rm : RefManager) (ref_id : Nat) : Option Reference :=
  rm.references.find? (fun r => r.id == ref_id)

/-- `add_manual_reference`: validate the four required fields, format, and
append a reference whose id is `len(self.references) + 1`.  Returns the new
id on success and `none` on validation failure, paired with the updated
state. -/
def add_manual_reference (rm : RefManager) (authors title journal year : String)
    (volume : String := "") (issue : String := "") (pages : String := "") (doi : String := "") :
    Option Nat × RefManager :=
  if authors = "" ∨ title = "" ∨ journal = "" ∨ year = "" then (none, rm)
  else
    let author_list := ((splitAuthors authors).map pyStrip).filter (fun a => a ≠ "")
    let formatted := format_manual_vancouver author_list title journal year volume issue pages doi
    let ref : Reference :=
      { id := rm.references.length + 1, formatted := formatted, doi := doi, source_type := "manual" }
    (some ref.id, { rm with references := rm.references ++ [ref] })

/-- `remove_reference`: drop every reference with the id, filter the id out
of each section's citation list, remove its first occurrence from the
global order, and return `True` (the `except` branch is unreachable for
these pure list operations). -/
def remove_reference (rm : RefManager) (ref_id : Nat) : Bool × RefManager :=
  (true,
   { references := rm.references.filter (fun r => r.id ≠ ref_id),
     citations := rm.citations.map (fun p => (p.1, p.2.filter (fun rid => rid ≠ ref_id))),
     citation_order := rm.citation_order.erase ref_id })

/-- `add_citation(section_name, ref_id)`: create the section's list if
missing, append the id to it if not already present, and append the id to
the global order if never cited before.  Existence of a reference with
that id is not checked. -/
def add_citation (rm : RefManager) (section_name : String) (ref_id : Nat) : RefManager :=
  let cits0 :=
    if (rm.citations.find? (fun p => p.1 == section_name)).isSome then rm.citations
    else rm.citations ++ [(section_name, [])]
  let cits :=
    cits0.map (fun p =>
      if p.1 = section_name ∧ ref_id ∉ p.2 then (p.1, p.2 ++ [ref_id]) else p)
  { rm with
    citations := cits,
    citation_order :=
      if ref_id ∈ rm.citation_order then rm.citation_order
      else rm.citation_order ++ [ref_id] }

/-! ## Renumbering engine (`reorder_references_by_citation`) -/

/-- The fixed preferred section ordering of the source. -/
def section_order_base : List String :=
  ["Título", "Resumo", "Introdução", "Métodos", "Resultados",
   "Discussão", "Conclusão", "Referências"]

/-- Append the section names not already present, preserving their given
relative order (the `for section in all_sections: if section not in
section_order: section_order.append(section)` loop). -/
def extendOrder (acc : List String) : List String → List String
  | [] => acc
  | s :: rest => if s ∈ acc then extendOrder acc rest else extendOrder (acc ++ [s]) rest

/-- For one token's id list, append each id not yet seen
(`for ref_id in ref_ids: if ref_id not in citation_order: …append`). -/
def addIds (acc : List Nat) (ids : List Nat) : List Nat :=
  ids.foldl (fun a i => if i ∈ a then a else a ++ [i]) acc

/-- The text-scan citation order of `reorder_references_by_citation`:
process sections in canonical order (fixed list first, then the remaining
section names in their given relative order), scan each present section's
text for citation tokens, and record each id at its first appearance. -/
def scanCitationOrder (sections_content : List (String × String)) : List Nat :=
  (extendOrder section_order_base (sections_content.map Prod.fst)).foldl
    (fun acc name =>
      match sections_content.find? (fun p => p.1 == name) with
      | some p => (findTokens p.2.data).foldl addIds acc
      | none => acc) []

/-- First renumbering pass: walk the scanned citation order and give each
id that has a live reference the next new id, collecting the mapping
entries and the renumbered copies. Returns (mapping, new references, next id). -/
def buildMapping (refs : List Reference) : List Nat → Nat → List (Nat × Nat) × List Reference × Nat
  | [], new_id => ([], [], new_id)
  | old_id :: rest, new_id =>
    match refs.find? (fun r => r.id == old_id) with
    | some r =>
      let p := buildMapping refs rest (new_id + 1)
      ((old_id, new_id) :: p.1, { r with id := new_id } :: p.2.1, p.2.2)
    | none => buildMapping refs rest new_id

/-- Second renumbering pass: walk the original reference list and give
each uncited reference (id not in the scanned order) the next new id. -/
def buildUncited (citation_order : List Nat) : List Reference → Nat → List (Nat × Nat) × List Reference × Nat
  | [], new_id => ([], [], new_id)
  | r :: rest, new_id =>
    if r.id ∈ citation_order then buildUncited citation_order rest new_id
    else
      let p := buildUncited citation_order rest (new_id + 1)
      ((r.id, new_id) :: p.1, { r with id := new_id } :: p.2.1, p.2.2)

/-- `reorder_references_by_citation(sections_content)`: on an empty
sections map, print and return `None` leaving the state untouched;
otherwise scan the text for the citation order, renumber cited-and-live
references `1..k` in first-appearance order, then the uncited references
next, replace the reference list, remap every citation list and the global
order through the mapping (dropping ids absent from it), and return the
mapping. -/
def reorder_references_by_citation (rm : RefManager)
    (sections_content : List (String × String)) :
    Option (List (Nat × Nat)) × RefManager :=
  if sections_content.isEmpty then (none, rm)
  else
    let citation_order := scanCitationOrder sections_content
    let p1 := buildMapping rm.references citation_order 1
    let p2 := buildUncited citation_order rm.references p1.2.2
    let id_mapping := p1.1 ++ p2.1
    let new_references := p1.2.1 ++ p2.2.1
    (some id_mapping,
     { references := new_references,
       citations := rm.citations.map (fun p => (p.1, p.2.filterMap (lookupId id_mapping))),
       citation_order := rm.citation_order.filterMap (lookupId id_mapping) })

/-- The dictionary returned by `get_citation_summary`. The
`uncited_references` entry is an integer difference, which Python lets go
negative. -/
structure CitationSummary where
  total_citations : Nat
  unique_references_cited : Nat
  total_references : Nat
  uncited_references : Int
  sections_with_citations : Nat
  citation_distribution : List (String × Nat)
deriving DecidableEq, Repr

/-- `get_citation_summary()`. -/
def get_citation_summary (rm : RefManager) : CitationSummary :=
  let unique_cited : Nat :=
    if rm.citations.isEmpty then 0
    else ((rm.citations.map Prod.snd).flatten.dedup).length
  { total_citations := (rm.citations.map (fun p => p.2.length)).sum
    unique_references_cited := unique_cited
    total_references := rm.references.length
    uncited_references := (rm.references.length : Int) - (unique_cited : Int)
    sections_with_citations := (rm.citations.filter (fun p => ¬ p.2.isEmpty)).length
    citation_distribution := rm.citations.map (fun p => (p.1, p.2.length)) }

/-! ## Concrete fixtures used by instances, witnesses and counterexamples -/

/-- An empty manager (a fresh `ReferenceManager()`). -/
def rmEmpty : RefManager :=
  { references := [], citations := [], citation_order := [] }

/-- A store holding three references with ids 1, 2, 3. -/
def rmThree : RefManager :=
  { references :=
      [{ id := 1, formatted := "Ref one.", doi := "", source_type := "manual" },
       { id := 2, formatted := "Ref two.", doi := "", source_type := "manual" },
       { id := 3, formatted := "Ref three.", doi := "", source_type := "manual" }],
    citations := [], citation_order := [] }

/-- The scenario sections of the specification. -/
def sectionsScenario : List (String × String) :=
  [("Intro", "finding [3] and [1,3]"), ("Methods", "see [2]")]

/-- A manager whose citation index holds an id with no live reference. -/
def rmPhantom : RefManager :=
  { references := [], citations := [("S", [5])], citation_order := [5] }

/-- Three manual additions followed by removing the reference with id 2:
the session of the id-reuse scenario. -/
def c5Step1 : RefManager :=
  (add_manual_reference rmEmpty "Ana Silva" "First title" "Journal" "2020").2

def c5Step2 : RefManager :=
  (add_manual_reference c5Step1 "Bruno Costa" "Second title" "Journal" "2021").2

def c5Step3 : RefManager :=
  (add_manual_reference c5Step2 "Carla Dias" "Third title" "Journal" "2022").2

def c5Step4 : RefManager :=
  (remove_reference c5Step3 2).2

/-! ## Lemmas about the token scanner -/

theorem scanGroup_suffix_le : ∀ (cs : List Char) (cur : Nat) (acc ids : List Nat) (r : List Char),
    scanGroup cs cur acc = some (ids, r) → r.length ≤ cs.length := by
  intro cs cur acc
  induction cs, cur, acc using scanGroup.induct with
  | case1 _ _ => intro ids r h; simp [scanGroup] at h
  | case2 c rest cur acc hdig ih =>
    intro ids r h
    rw [scanGroup.eq_def] at h; simp only [if_pos hdig] at h
    exact Nat.le_succ_of_le (ih _ _ h)
  | case3 rest cur acc hdig =>
    intro ids r h
    rw [scanGroup.eq_def] at h
    simp [hdig] at h
    simp [h.2]
  | case4 cur acc hdig hne =>
    intro ids r h
    rw [scanGroup.eq_def] at h
    simp [hdig, hne] at h
  | case5 cur acc d rest' hd hdig hne ih =>
    intro ids r h
    rw [scanGroup.eq_def] at h
    simp [hdig, hne, hd] at h
    have := ih _ _ h
    simp
    omega
  | case6 cur acc d rest' hd hdig hne =>
    intro ids r h
    rw [scanGroup.eq_def] at h
    simp [hdig, hne, hd] at h
  | case7 c rest cur acc hdig hbr hcm =>
    intro ids r h
    rw [scanGroup.eq_def] at h
    simp [hdig, hbr, hcm] at h

theorem scanGroup_ids_ne_nil : ∀ (cs : List Char) (cur : Nat) (acc ids : List Nat) (r : List Char),
    scanGroup cs cur acc = some (ids, r) → ids ≠ [] := by
  intro cs cur acc
  induction cs, cur, acc using scanGroup.induct with
  | case1 _ _ => intro ids r h; simp [scanGroup] at h
  | case2 c rest cur acc hdig ih =>
    intro ids r h
    rw [scanGroup.eq_def] at h; simp only [if_pos hdig] at h
    exact ih _ _ h
  | case3 rest cur acc hdig =>
    intro ids r h
    rw [scanGroup.eq_def] at h
    simp [hdig] at h
    simp [← h.1]
  | case4 cur acc hdig hne =>
    intro ids r h
    rw [scanGroup.eq_def] at h
    simp [hdig, hne] at h
  | case5 cur acc d rest' hd hdig hne ih =>
    intro ids r h
    rw [scanGroup.eq_def] at h
    simp [hdig, hne, hd] at h
    exact ih _ _ h
  | case6 cur acc d rest' hd hdig hne =>
    intro ids r h
    rw [scanGroup.eq_def] at h
    simp [hdig, hne, hd] at h
  | case7 c rest cur acc hdig hbr hcm =>
    intro ids r h
    rw [scanGroup.eq_def] at h
    simp [hdig, hbr, hcm] at h

theorem matchToken_suffix_le {cs : List Char} {ids : List Nat} {r : List Char}
    (h : matchToken cs = some (ids, r)) : r.length ≤ cs.length := by
  match cs with
  | [] => simp [matchToken] at h
  | c :: rest =>
    rw [matchToken.eq_def] at h
    by_cases hd : c.isDigit
    · simp only [if_pos hd] at h
      exact Nat.le_succ_of_le (scanGroup_suffix_le _ _ _ _ _ h)
    · simp [hd] at h

theorem matchToken_ids_ne_nil {cs : List Char} {ids : List Nat} {r : List Char}
    (h : matchToken cs = some (ids, r)) : ids ≠ [] := by
  match cs with
  | [] => simp [matchToken] at h
  | c :: rest =>
    rw [matchToken.eq_def] at h
    by_cases hd : c.isDigit
    · simp only [if_pos hd] at h
      exact scanGroup_ids_ne_nil _ _ _ _ _ h
    · simp [hd] at h

theorem scanGroup_digits_run {g : List Char} (hg : ∀ c ∈ g, c.isDigit = true) :
    ∀ (t : List Char) (cur : Nat) (acc : List Nat),
    scanGroup (g ++ t) cur acc = scanGroup t (g.foldl (fun n c => n * 10 + (c.toNat - 48)) cur) acc := by
  induction g with
  | nil => intro t cur acc; simp
  | cons c g ih =>
    intro t cur acc
    have hc : c.isDigit = true := hg c (by simp)
    have hrest : ∀ c ∈ g, c.isDigit = true := fun x hx => hg x (by simp [hx])
    rw [List.cons_append, scanGroup.eq_def]
    simp only [if_pos hc]
    rw [ih hrest]
    simp [List.foldl_cons]

theorem scanGroup_joinTail {gs : List (List Char)}
    (hgs : ∀ g ∈ gs, g ≠ [] ∧ ∀ c ∈ g, c.isDigit = true) :
    ∀ (rest : List Char) (cur : Nat) (acc : List Nat),
    scanGroup (joinTail gs ++ ']' :: rest) cur acc =
      some (acc ++ cur :: gs.map parseNat, rest) := by
  induction gs with
  | nil =>
    intro rest cur acc
    rw [joinTail, List.nil_append, scanGroup.eq_def]
    simp
  | cons g gs ih =>
    intro rest cur acc
    obtain ⟨hne, hdig⟩ := hgs g (by simp)
    obtain ⟨d, g', rfl⟩ : ∃ d g', g = d :: g' := by
      match g, hne with
      | d :: g', _ => exact ⟨d, g', rfl⟩
    have hd : d.isDigit = true := hdig d (by simp)
    have hg' : ∀ c ∈ g', c.isDigit = true := fun x hx => hdig x (by simp [hx])
    rw [joinTail]
    rw [scanGroup.eq_def]
    simp only [List.cons_append, List.append_assoc]
    simp [hd]
    rw [scanGroup_digits_run hg']
    rw [ih (fun x hx => hgs x (by simp [hx]))]
    simp [parseNat, List.foldl_cons]

theorem matchToken_joinGroups {g : List Char} {gs : List (List Char)}
    (hgs : ∀ x ∈ g :: gs, x ≠ [] ∧ ∀ c ∈ x, c.isDigit = true) (rest : List Char) :
    matchToken (joinGroups (g :: gs) ++ ']' :: rest) =
      some ((g :: gs).map parseNat, rest) := by
  obtain ⟨hne, hdig⟩ := hgs g (by simp)
  obtain ⟨d, g', rfl⟩ : ∃ d g', g = d :: g' := by
    match g, hne with
    | d :: g', _ => exact ⟨d, g', rfl⟩
  have hd : d.isDigit = true := hdig d (by simp)
  have hg' : ∀ c ∈ g', c.isDigit = true := fun x hx => hdig x (by simp [hx])
  rw [joinGroups, matchToken.eq_def]
  simp only [List.cons_append, List.append_assoc]
  simp [hd]
  rw [scanGroup_digits_run hg']
  rw [scanGroup_joinTail (fun x hx => hgs x (by simp [hx]))]
  simp [parseNat, List.foldl_cons]

/-! ## Fuel irrelevance and step equations for the text pass -/

theorem rewriteAux_congr (m : List (Nat × Nat)) :
    ∀ (n₁ : Nat) (cs : List Char) (n₂ : Nat), cs.length ≤ n₁ → cs.length ≤ n₂ →
    rewriteAux m n₁ cs = rewriteAux m n₂ cs := by
  intro n₁
  induction n₁ with
  | zero =>
    intro cs n₂ h₁ _
    have : cs = [] := by
      cases cs with
      | nil => rfl
      | cons c cs => simp at h₁
    subst this
    simp [rewriteAux]
  | succ n ih =>
    intro cs n₂ h₁ h₂
    cases cs with
    | nil => simp [rewriteAux]
    | cons c cs =>
      obtain ⟨k, rfl⟩ : ∃ k, n₂ = k + 1 := by
        cases n₂ with
        | zero => simp at h₂
        | succ k => exact ⟨k, rfl⟩
      rw [rewriteAux, rewriteAux]
      by_cases hc : c = '['
      · simp only [if_pos hc]
        cases hmt : matchToken cs with
        | some p =>
          obtain ⟨ids, after⟩ := p
          have hle := matchToken_suffix_le hmt
          dsimp only
          simp at h₁ h₂
          rw [ih after k (by omega) (by omega)]
        | none =>
          simp at h₁ h₂
          rw [ih cs k (by omega) (by omega)]
      · simp only [if_neg hc]
        simp at h₁ h₂
        rw [ih cs k (by omega) (by omega)]

theorem rewriteChars_nil (m : List (Nat × Nat)) : rewriteChars m [] = [] := rfl

theorem rewriteChars_cons_ne (m : List (Nat × Nat)) {c : Char} (hc : c ≠ '[') (cs : List Char) :
    rewriteChars m (c :: cs) = c :: rewriteChars m cs := by
  rw [rewriteChars, rewriteChars, List.length_cons, rewriteAux, if_neg hc]

theorem rewriteChars_token (m : List (Nat × Nat)) {cs : List Char} {ids : List Nat}
    {after : List Char} (h : matchToken cs = some (ids, after)) :
    rewriteChars m ('[' :: cs) =
      renderIds (replace_citation m ids) ++ rewriteChars m after := by
  rw [rewriteChars, rewriteChars, List.length_cons, rewriteAux, if_pos rfl, h]
  dsimp only
  rw [rewriteAux_congr m cs.length after after.length (matchToken_suffix_le h) le_rfl]

theorem rewriteChars_nomatch (m : List (Nat × Nat)) {cs : List Char}
    (h : matchToken cs = none) :
    rewriteChars m ('[' :: cs) = '[' :: rewriteChars m cs := by
  rw [rewriteChars, rewriteChars, List.length_cons, rewriteAux, if_pos rfl, h]

theorem findAux_congr :
    ∀ (n₁ : Nat) (cs : List Char) (n₂ : Nat), cs.length ≤ n₁ → cs.length ≤ n₂ →
    findAux n₁ cs = findAux n₂ cs := by
  intro n₁
  induction n₁ with
  | zero =>
    intro cs n₂ h₁ _
    have : cs = [] := by
      cases cs with
      | nil => rfl
      | cons c cs => simp at h₁
    subst this
    simp [findAux]
  | succ n ih =>
    intro cs n₂ h₁ h₂
    cases cs with
    | nil => simp [findAux]
    | cons c cs =>
      obtain ⟨k, rfl⟩ : ∃ k, n₂ = k + 1 := by
        cases n₂ with
        | zero => simp at h₂
        | succ k => exact ⟨k, rfl⟩
      rw [findAux, findAux]
      by_cases hc : c = '['
      · simp only [if_pos hc]
        cases hmt : matchToken cs with
        | some p =>
          obtain ⟨ids, after⟩ := p
          have hle := matchToken_suffix_le hmt
          dsimp only
          simp at h₁ h₂
          rw [ih after k (by omega) (by omega)]
        | none =>
          simp at h₁ h₂
          rw [ih cs k (by omega) (by omega)]
      · simp only [if_neg hc]
        simp at h₁ h₂
        rw [ih cs k (by omega) (by omega)]

theorem findTokens_nil : findTokens [] = [] := rfl

theorem findTokens_cons_ne {c : Char} (hc : c ≠ '[') (cs : List Char) :
    findTokens (c :: cs) = findTokens cs := by
  rw [findTokens, findTokens, List.length_cons, findAux, if_neg hc]

theorem findTokens_token {cs : List Char} {ids : List Nat} {after : List Char}
    (h : matchToken cs = some (ids, after)) :
    findTokens ('[' :: cs) = ids :: findTokens after := by
  rw [findTokens, findTokens, List.length_cons, findAux, if_pos rfl, h]
  dsimp only
  rw [findAux_congr cs.length after after.length (matchToken_suffix_le h) le_rfl]

theorem findTokens_nomatch {cs : List Char} (h : matchToken cs = none) :
    findTokens ('[' :: cs) = findTokens cs := by
  rw [findTokens, findTokens, List.length_cons, findAux, if_pos rfl, h]

theorem normAux_congr (keys : List Nat) :
    ∀ (n₁ : Nat) (cs : List Char) (n₂ : Nat), cs.length ≤ n₁ → cs.length ≤ n₂ →
    normAux keys n₁ cs = normAux keys n₂ cs := by
  intro n₁
  induction n₁ with
  | zero =>
    intro cs n₂ h₁ _
    have : cs = [] := by
      cases cs with
      | nil => rfl
      | cons c cs => simp at h₁
    subst this
    simp [normAux]
  | succ n ih =>
    intro cs n₂ h₁ h₂
    cases cs with
    | nil => simp [normAux]
    | cons c cs =>
      obtain ⟨k, rfl⟩ : ∃ k, n₂ = k + 1 := by
        cases n₂ with
        | zero => simp at h₂
        | succ k => exact ⟨k, rfl⟩
      rw [normAux, normAux]
      by_cases hc : c = '['
      · simp only [if_pos hc]
        cases hmt : matchToken cs with
        | some p =>
          obtain ⟨ids, after⟩ := p
          have hle := matchToken_suffix_le hmt
          dsimp only
          simp at h₁ h₂
          rw [ih after k (by omega) (by omega)]
        | none =>
          simp at h₁ h₂
          rw [ih cs k (by omega) (by omega)]
      · simp only [if_neg hc]
        simp at h₁ h₂
        rw [ih cs k (by omega) (by omega)]

theorem normChars_cons_ne (keys : List Nat) {c : Char} (hc : c ≠ '[') (cs : List Char) :
    normChars keys (c :: cs) = normChars keys cs := by
  rw [normChars, normChars, List.length_cons, normAux, if_neg hc]

theorem normChars_token (keys : List Nat) {cs : List Char} {ids : List Nat}
    {after : List Char} (h : matchToken cs = some (ids, after)) :
    normChars keys ('[' :: cs) =
      (ids.all (fun i => i ∈ keys) && sortedLeB ids &&
       ('[' :: cs == renderIds ids ++ after) && normChars keys after) := by
  rw [normChars, normChars, List.length_cons, normAux, if_pos rfl, h]
  dsimp only
  rw [normAux_congr keys cs.length after after.length (matchToken_suffix_le h) le_rfl]

theorem normChars_nomatch (keys : List Nat) {cs : List Char} (h : matchToken cs = none) :
    normChars keys ('[' :: cs) = normChars keys cs := by
  rw [normChars, normChars, List.length_cons, normAux, if_pos rfl, h]

/-! ## Decimal rendering lemmas -/

theorem digitChar_isDigit {r : Nat} (h : r < 10) : (Char.ofNat (48 + r)).isDigit = true := by
  interval_cases r <;> decide

theorem digitChar_toNat {r : Nat} (h : r < 10) : (Char.ofNat (48 + r)).toNat = 48 + r := by
  interval_cases r <;> decide

theorem natDigitsAux_zero (f : Nat) (acc : List Char) : natDigitsAux f 0 acc = acc := by
  cases f <;> simp [natDigitsAux]

theorem natDigitsAux_append : ∀ (f n : Nat) (acc : List Char),
    natDigitsAux f n acc = natDigitsAux f n [] ++ acc := by
  intro f
  induction f with
  | zero => intro n acc; simp [natDigitsAux]
  | succ f ih =>
    intro n acc
    by_cases h : n = 0
    · simp [natDigitsAux, h]
    · rw [natDigitsAux, if_neg h, natDigitsAux, if_neg h]
      rw [ih (n / 10) (Char.ofNat (48 + n % 10) :: acc),
          ih (n / 10) [Char.ofNat (48 + n % 10)]]
      simp

theorem natDigitsAux_fuel : ∀ (n f₁ f₂ : Nat) (acc : List Char), n ≤ f₁ → n ≤ f₂ →
    natDigitsAux f₁ n acc = natDigitsAux f₂ n acc := by
  intro n
  induction n using Nat.strong_induction_on with
  | _ n ih =>
    intro f₁ f₂ acc h₁ h₂
    by_cases hn : n = 0
    · subst hn
      cases f₁ <;> cases f₂ <;> simp [natDigitsAux]
    · obtain ⟨g₁, rfl⟩ : ∃ g, f₁ = g + 1 := by cases f₁ with | zero => omega | succ g => exact ⟨g, rfl⟩
      obtain ⟨g₂, rfl⟩ : ∃ g, f₂ = g + 1 := by cases f₂ with | zero => omega | succ g => exact ⟨g, rfl⟩
      rw [natDigitsAux, if_neg hn, natDigitsAux, if_neg hn]
      have hdiv : n / 10 < n := Nat.div_lt_self (by omega) (by omega)
      exact ih (n / 10) hdiv g₁ g₂ _ (by omega) (by omega)

theorem parseNat_append_digit (xs : List Char) (c : Char) :
    parseNat (xs ++ [c]) = parseNat xs * 10 + (c.toNat - 48) := by
  simp [parseNat, List.foldl_append]

theorem natDigitsAux_spec : ∀ (n f : Nat), n ≤ f → 0 < n →
    (∀ c ∈ natDigitsAux f n [], c.isDigit = true) ∧
    natDigitsAux f n [] ≠ [] ∧ parseNat (natDigitsAux f n []) = n := by
  intro n
  induction n using Nat.strong_induction_on with
  | _ n ih =>
    intro f hf hn
    obtain ⟨g, rfl⟩ : ∃ g, f = g + 1 := by cases f with | zero => omega | succ g => exact ⟨g, rfl⟩
    rw [natDigitsAux, if_neg (by omega)]
    rw [natDigitsAux_append]
    have hmod : n % 10 < 10 := Nat.mod_lt _ (by omega)
    by_cases hsmall : n < 10
    · have hdiv0 : n / 10 = 0 := Nat.div_eq_of_lt hsmall
      rw [hdiv0, natDigitsAux_zero, List.nil_append]
      refine ⟨?_, by simp, ?_⟩
      · intro c hc
        simp at hc
        subst hc
        exact digitChar_isDigit hmod
      · simp [parseNat, digitChar_toNat hmod]
        omega
    · have hdivpos : 0 < n / 10 := Nat.div_pos (by omega) (by omega)
      have hdivlt : n / 10 < n := Nat.div_lt_self (by omega) (by omega)
      have hdivle : n / 10 ≤ g := by omega
      obtain ⟨hdig, hne, hparse⟩ := ih (n / 10) hdivlt g hdivle hdivpos
      refine ⟨?_, by simp, ?_⟩
      · intro c hc
        rcases List.mem_append.mp hc with h | h
        · exact hdig c h
        · simp at h
          subst h
          exact digitChar_isDigit hmod
      · rw [parseNat_append_digit, hparse, digitChar_toNat hmod]
        omega

theorem natDigits_spec (n : Nat) :
    (∀ c ∈ natDigits n, c.isDigit = true) ∧ natDigits n ≠ [] ∧ parseNat (natDigits n) = n := by
  by_cases hn : n = 0
  · subst hn; refine ⟨fun c hc => ?_, by decide, by decide⟩
    simp [natDigits] at hc
    subst hc
    decide
  · rw [natDigits, if_neg hn]
    exact natDigitsAux_spec n n le_rfl (by omega)

theorem parseNat_natDigits (n : Nat) : parseNat (natDigits n) = n :=
  (natDigits_spec n).2.2

theorem renderIds_groups_ok (ids : List Nat) :
    ∀ g ∈ ids.map natDigits, g ≠ [] ∧ ∀ c ∈ g, c.isDigit = true := by
  intro g hg
  simp at hg
  obtain ⟨i, _, rfl⟩ := hg
  exact ⟨(natDigits_spec i).2.1, (natDigits_spec i).1⟩

theorem map_parseNat_natDigits (ids : List Nat) :
    (ids.map natDigits).map parseNat = ids := by
  rw [List.map_map]
  have : parseNat ∘ natDigits = id := by
    funext n
    exact parseNat_natDigits n
  rw [this, List.map_id]

/-! ## Compositional behaviour of the rewrite pass -/

theorem rewriteChars_skip (m : List (Nat × Nat)) {pre : List Char} (hpre : '[' ∉ pre)
    (cs : List Char) : rewriteChars m (pre ++ cs) = pre ++ rewriteChars m cs := by
  induction pre with
  | nil => simp
  | cons c pre ih =>
    have hc : c ≠ '[' := by
      intro hcc
      exact hpre (by simp [hcc])
    rw [List.cons_append, rewriteChars_cons_ne m hc, ih (by intro hx; exact hpre (by simp [hx]))]
    simp

theorem findTokens_skip {pre : List Char} (hpre : '[' ∉ pre) (cs : List Char) :
    findTokens (pre ++ cs) = findTokens cs := by
  induction pre with
  | nil => simp
  | cons c pre ih =>
    have hc : c ≠ '[' := by
      intro hcc
      exact hpre (by simp [hcc])
    rw [List.cons_append, findTokens_cons_ne hc, ih (by intro hx; exact hpre (by simp [hx]))]

theorem tokenChars_append (gs : List (List Char)) (rest : List Char) :
    tokenChars gs ++ rest = '[' :: (joinGroups gs ++ ']' :: rest) := by
  simp [tokenChars]

theorem rewriteChars_token_groups (m : List (Nat × Nat)) {g : List Char} {gs : List (List Char)}
    (hgs : ∀ x ∈ g :: gs, x ≠ [] ∧ ∀ c ∈ x, c.isDigit = true) (rest : List Char) :
    rewriteChars m (tokenChars (g :: gs) ++ rest) =
      renderIds (replace_citation m ((g :: gs).map parseNat)) ++ rewriteChars m rest := by
  rw [tokenChars_append, rewriteChars_token m (matchToken_joinGroups hgs rest)]

theorem findTokens_token_groups {g : List Char} {gs : List (List Char)}
    (hgs : ∀ x ∈ g :: gs, x ≠ [] ∧ ∀ c ∈ x, c.isDigit = true) (rest : List Char) :
    findTokens (tokenChars (g :: gs) ++ rest) =
      ((g :: gs).map parseNat) :: findTokens rest := by
  rw [tokenChars_append, findTokens_token (matchToken_joinGroups hgs rest)]

/-- A rendered token parses back to exactly its ids, whatever follows. -/
theorem matchToken_renderIds (i : Nat) (is : List Nat) (rest : List Char) :
    matchToken (joinGroups ((i :: is).map natDigits) ++ ']' :: rest) = some (i :: is, rest) := by
  have h := @matchToken_joinGroups (natDigits i) (is.map natDigits)
    (by
      intro x hx
      exact renderIds_groups_ok (i :: is) x (by simpa using hx)) rest
  simp only [List.map_cons]
  rw [h]
  have : ((natDigits i :: is.map natDigits).map parseNat) = i :: is := by
    have := map_parseNat_natDigits (i :: is)
    simpa using this
  rw [this]

/-! ## Sortedness and the sort used by the rewrite -/

theorem sortedLeB_iff : ∀ (l : List Nat), sortedLeB l = true ↔ List.Sorted (· ≤ ·) l := by
  intro l
  induction l with
  | nil => simp [sortedLeB]
  | cons a t ih =>
    cases t with
    | nil => simp [sortedLeB]
    | cons b t =>
      rw [sortedLeB]
      constructor
      · intro h
        have hab : a ≤ b := by
          have := (Bool.and_eq_true _ _).mp h
          exact of_decide_eq_true this.1
        have hs : List.Sorted (· ≤ ·) (b :: t) := ih.mp ((Bool.and_eq_true _ _).mp h).2
        refine List.sorted_cons.mpr ⟨?_, hs⟩
        intro x hx
        rcases List.mem_cons.mp hx with rfl | hx
        · exact hab
        · exact le_trans hab (List.rel_of_sorted_cons hs x hx)
      · intro h
        have hab : a ≤ b := List.rel_of_sorted_cons h b (by simp)
        have hs : List.Sorted (· ≤ ·) (b :: t) := h.of_cons
        exact (Bool.and_eq_true _ _).mpr ⟨decide_eq_true hab, ih.mpr hs⟩

theorem sortIds_perm (l : List Nat) : (sortIds l).Perm l :=
  List.perm_insertionSort (· ≤ ·) l

theorem sortIds_sorted (l : List Nat) : List.Sorted (· ≤ ·) (sortIds l) :=
  List.sorted_insertionSort (· ≤ ·) l

theorem sortIds_length (l : List Nat) : (sortIds l).length = l.length :=
  (sortIds_perm l).length_eq

theorem sortIds_of_sorted {l : List Nat} (h : List.Sorted (· ≤ ·) l) : sortIds l = l :=
  List.eq_of_perm_of_sorted (sortIds_perm l) (sortIds_sorted l) h

/-! ## Rewriting never creates a token where none matched -/

theorem scanGroup_cons (c : Char) (rest : List Char) (cur : Nat) (acc : List Nat) :
    scanGroup (c :: rest) cur acc =
      if c.isDigit then scanGroup rest (cur * 10 + (c.toNat - 48)) acc
      else if c = ']' then some (acc ++ [cur], rest)
      else if c = ',' then
        match rest with
        | [] => none
        | d :: rest' => if d.isDigit then scanGroup rest' (d.toNat - 48) (acc ++ [cur]) else none
      else none := by
  rw [scanGroup.eq_def]

theorem matchToken_cons (c : Char) (rest : List Char) :
    matchToken (c :: rest) =
      if c.isDigit then scanGroup rest (c.toNat - 48) [] else none := by
  rw [matchToken.eq_def]

theorem rewriteChars_bracket_head (m : List (Nat × Nat)) (r : List Char) :
    ∃ t, rewriteChars m ('[' :: r) = '[' :: t := by
  cases hmt : matchToken r with
  | some p =>
    obtain ⟨ids, after⟩ := p
    rw [rewriteChars_token m hmt]
    exact ⟨joinGroups ((replace_citation m ids).map natDigits) ++ ']' :: rewriteChars m after,
      by simp [renderIds, tokenChars]⟩
  | none =>
    rw [rewriteChars_nomatch m hmt]
    exact ⟨rewriteChars m r, rfl⟩

theorem scanGroup_rewrite_none : ∀ (N : Nat) (cs : List Char), cs.length ≤ N →
    ∀ (cur : Nat) (acc : List Nat), scanGroup cs cur acc = none →
    ∀ (m : List (Nat × Nat)) (cur' : Nat) (acc' : List Nat),
    scanGroup (rewriteChars m cs) cur' acc' = none := by
  intro N
  induction N with
  | zero =>
    intro cs hN
    have : cs = [] := by
      cases cs with
      | nil => rfl
      | cons c cs => simp at hN
    subst this
    intro cur acc _ m cur' acc'
    simp [rewriteChars, rewriteAux, scanGroup]
  | succ N ih =>
    intro cs hN cur acc h m cur' acc'
    cases cs with
    | nil => simp [rewriteChars, rewriteAux, scanGroup]
    | cons c cs' =>
      simp only [List.length_cons] at hN
      by_cases hdig : c.isDigit
      · have hc : c ≠ '[' := by
          intro hcc
          subst hcc
          simp at hdig
        rw [scanGroup_cons, if_pos hdig] at h
        rw [rewriteChars_cons_ne m hc, scanGroup_cons, if_pos hdig]
        exact ih cs' (by omega) _ _ h m _ _
      · by_cases hbr : c = ']'
        · rw [scanGroup_cons, if_neg hdig, if_pos hbr] at h
          simp at h
        · by_cases hcm : c = ','
          · subst hcm
            cases cs' with
            | nil =>
              rw [rewriteChars_cons_ne m (by decide), rewriteChars_nil, scanGroup_cons]
              simp [hdig, hbr]
            | cons d rest' =>
              by_cases hd : d.isDigit
              · have hdne : d ≠ '[' := by
                  intro hdd
                  subst hdd
                  simp at hd
                rw [scanGroup_cons, if_neg hdig, if_neg hbr, if_pos rfl] at h
                dsimp only at h
                rw [if_pos hd] at h
                rw [rewriteChars_cons_ne m (by decide), rewriteChars_cons_ne m hdne]
                rw [scanGroup_cons, if_neg hdig, if_neg hbr, if_pos rfl]
                dsimp only
                rw [if_pos hd]
                simp only [List.length_cons] at hN
                exact ih rest' (by omega) _ _ h m _ _
              · rw [rewriteChars_cons_ne m (by decide)]
                by_cases hdbr : d = '['
                · subst hdbr
                  obtain ⟨t, ht⟩ := rewriteChars_bracket_head m rest'
                  rw [ht, scanGroup_cons]
                  simp [hdig, hbr]
                · rw [rewriteChars_cons_ne m hdbr, scanGroup_cons]
                  simp [hdig, hbr, hd]
          · by_cases hc : c = '['
            · subst hc
              obtain ⟨t, ht⟩ := rewriteChars_bracket_head m cs'
              rw [ht, scanGroup_cons]
              simp [hdig, hbr, hcm]
            · rw [rewriteChars_cons_ne m hc, scanGroup_cons]
              simp [hdig, hbr, hcm]

theorem matchToken_rewrite_none {cs : List Char} (h : matchToken cs = none)
    (m : List (Nat × Nat)) : matchToken (rewriteChars m cs) = none := by
  cases cs with
  | nil => simp [rewriteChars, rewriteAux, matchToken]
  | cons c cs' =>
    by_cases hdig : c.isDigit
    · have hc : c ≠ '[' := by
        intro hcc
        subst hcc
        simp at hdig
      rw [matchToken_cons, if_pos hdig] at h
      rw [rewriteChars_cons_ne m hc, matchToken_cons, if_pos hdig]
      exact scanGroup_rewrite_none cs'.length cs' le_rfl _ _ h m _ _
    · by_cases hc : c = '['
      · subst hc
        obtain ⟨t, ht⟩ := rewriteChars_bracket_head m cs'
        rw [ht, matchToken_cons]
        simp [hdig]
      · rw [rewriteChars_cons_ne m hc, matchToken_cons]
        simp [hdig]

/-! ## Round trip on normalized text -/

theorem renderIds_length_ge (ids : List Nat) : 2 ≤ (renderIds ids).length := by
  simp [renderIds, tokenChars]

theorem replace_citation_inverse {m1 m2 : List (Nat × Nat)} {ids : List Nat}
    (hinv : ∀ a ∈ m1.map Prod.fst, mapId m2 (mapId m1 a) = a)
    (hall : ∀ i ∈ ids, i ∈ m1.map Prod.fst)
    (hsort : List.Sorted (· ≤ ·) ids) :
    replace_citation m2 (replace_citation m1 ids) = ids := by
  have h1 : (replace_citation m1 ids).Perm (ids.map (mapId m1)) := sortIds_perm _
  have h2 : ((replace_citation m1 ids).map (mapId m2)).Perm
      ((ids.map (mapId m1)).map (mapId m2)) := h1.map _
  have h3 : (ids.map (mapId m1)).map (mapId m2) = ids := by
    rw [List.map_map]
    have : ∀ a ∈ ids, (mapId m2 ∘ mapId m1) a = id a := by
      intro a ha
      exact hinv a (hall a ha)
    rw [List.map_congr_left this, List.map_id]
  rw [replace_citation]
  refine List.eq_of_perm_of_sorted ?_ (sortIds_sorted _) hsort
  have h4 := h2
  rw [h3] at h4
  exact (sortIds_perm _).trans h4

theorem rewrite_roundtrip_aux : ∀ (N : Nat) (cs : List Char), cs.length ≤ N →
    ∀ (m1 m2 : List (Nat × Nat)),
    (∀ a ∈ m1.map Prod.fst, mapId m2 (mapId m1 a) = a) →
    normChars (m1.map Prod.fst) cs = true →
    rewriteChars m2 (rewriteChars m1 cs) = cs := by
  intro N
  induction N with
  | zero =>
    intro cs hN
    have : cs = [] := by
      cases cs with
      | nil => rfl
      | cons c cs => simp at hN
    subst this
    intro m1 m2 _ _
    simp [rewriteChars, rewriteAux]
  | succ N ih =>
    intro cs hN m1 m2 hinv hnorm
    cases cs with
    | nil => simp [rewriteChars, rewriteAux]
    | cons c cs' =>
      simp only [List.length_cons] at hN
      by_cases hc : c = '['
      · subst hc
        cases hmt : matchToken cs' with
        | none =>
          rw [rewriteChars_nomatch m1 hmt]
          rw [rewriteChars_nomatch m2 (matchToken_rewrite_none hmt m1)]
          rw [normChars_nomatch _ hmt] at hnorm
          rw [ih cs' (by omega) m1 m2 hinv hnorm]
        | some p =>
          obtain ⟨ids, after⟩ := p
          rw [normChars_token _ hmt] at hnorm
          simp only [Bool.and_eq_true, beq_iff_eq, List.all_eq_true, decide_eq_true_eq] at hnorm
          obtain ⟨⟨⟨hall, hsortb⟩, hspan⟩, hnorm'⟩ := hnorm
          have hsort : List.Sorted (· ≤ ·) ids := (sortedLeB_iff ids).mp hsortb
          rw [rewriteChars_token m1 hmt]
          have hne : replace_citation m1 ids ≠ [] := by
            have hids : ids ≠ [] := matchToken_ids_ne_nil hmt
            rw [replace_citation]
            intro hempty
            have := sortIds_perm (ids.map (mapId m1))
            rw [hempty] at this
            have := this.symm.eq_nil
            simp at this
            exact hids this
          obtain ⟨i, is, hids1⟩ : ∃ i is, replace_citation m1 ids = i :: is := by
            match h : replace_citation m1 ids, hne with
            | i :: is, _ => exact ⟨i, is, rfl⟩
          rw [hids1]
          have hrend : renderIds (i :: is) ++ rewriteChars m1 after =
              '[' :: (joinGroups ((i :: is).map natDigits) ++ ']' :: rewriteChars m1 after) := by
            simp [renderIds, tokenChars]
          rw [hrend]
          rw [rewriteChars_token m2 (matchToken_renderIds i is (rewriteChars m1 after))]
          rw [← hids1]
          rw [replace_citation_inverse hinv hall hsort]
          have hlen : after.length ≤ N := by
            have hsp := hspan
            have : ('[' :: cs').length = (renderIds ids ++ after).length := by rw [hsp]
            simp at this
            have hge := renderIds_length_ge ids
            omega
          rw [ih after hlen m1 m2 hinv hnorm']
          rw [← hspan]
      · rw [rewriteChars_cons_ne m1 hc, rewriteChars_cons_ne m2 hc]
        rw [normChars_cons_ne _ hc] at hnorm
        rw [ih cs' (by omega) m1 m2 hinv hnorm]

/-! ## The scanned citation order has no duplicates -/

theorem addIds_nodup : ∀ (ids acc : List Nat), acc.Nodup → (addIds acc ids).Nodup := by
  intro ids
  induction ids with
  | nil => intro acc h; exact h
  | cons i ids ih =>
    intro acc h
    rw [addIds, List.foldl_cons]
    by_cases hi : i ∈ acc
    · rw [if_pos hi]
      exact ih acc h
    · rw [if_neg hi]
      refine ih _ ?_
      rw [List.nodup_append]
      exact ⟨h, by simp, by simpa [List.disjoint_singleton] using hi⟩

theorem foldl_addIds_nodup : ∀ (toks : List (List Nat)) (acc : List Nat),
    acc.Nodup → (toks.foldl addIds acc).Nodup := by
  intro toks
  induction toks with
  | nil => intro acc h; exact h
  | cons t toks ih =>
    intro acc h
    rw [List.foldl_cons]
    exact ih _ (addIds_nodup t acc h)

theorem scanFold_nodup (sections : List (String × String)) :
    ∀ (names : List String) (acc : List Nat), acc.Nodup →
    (names.foldl
      (fun acc name =>
        match sections.find? (fun p => p.1 == name) with
        | some p => (findTokens p.2.data).foldl addIds acc
        | none => acc) acc).Nodup := by
  intro names
  induction names with
  | nil => intro acc h; exact h
  | cons name names ih =>
    intro acc h
    rw [List.foldl_cons]
    cases hf : sections.find? (fun p => p.1 == name) with
    | some p => exact ih _ (foldl_addIds_nodup _ acc h)
    | none => exact ih _ h

theorem scanCitationOrder_nodup (sections : List (String × String)) :
    (scanCitationOrder sections).Nodup := by
  rw [scanCitationOrder]
  exact scanFold_nodup sections _ [] (by simp)

/-! ## Association list lookups -/

theorem lookupId_cons_self (k v : Nat) (m : List (Nat × Nat)) :
    lookupId ((k, v) :: m) k = some v := by
  simp [lookupId, List.find?_cons]

theorem lookupId_cons_ne {k i : Nat} (hki : i ≠ k) (v : Nat) (m : List (Nat × Nat)) :
    lookupId ((k, v) :: m) i = lookupId m i := by
  simp only [lookupId, List.find?_cons]
  have : (k == i) = false := by
    simp
    exact fun h => hki h.symm
  rw [this]

theorem lookupId_not_mem {m : List (Nat × Nat)} {i : Nat} (h : i ∉ m.map Prod.fst) :
    lookupId m i = none := by
  rw [lookupId]
  have : m.find? (fun q => q.1 == i) = none := by
    rw [List.find?_eq_none]
    intro q hq hqi
    simp at hqi
    exact h (List.mem_map.mpr ⟨q, hq, hqi⟩)
  rw [this]
  rfl

theorem lookupId_append_left {m1 : List (Nat × Nat)} {i : Nat} {v : Nat}
    (h : lookupId m1 i = some v) (m2 : List (Nat × Nat)) :
    lookupId (m1 ++ m2) i = some v := by
  rw [lookupId, List.find?_append]
  rw [lookupId] at h
  cases hf : m1.find? (fun q => q.1 == i) with
  | none => rw [hf] at h; simp at h
  | some q => rw [hf] at h; simp [Option.or]; simpa using h

theorem lookupId_append_right {m1 : List (Nat × Nat)} {i : Nat}
    (h : i ∉ m1.map Prod.fst) (m2 : List (Nat × Nat)) :
    lookupId (m1 ++ m2) i = lookupId m2 i := by
  rw [lookupId, List.find?_append]
  have h1 : m1.find? (fun q => q.1 == i) = none := by
    rw [List.find?_eq_none]
    intro q hq hqi
    simp at hqi
    exact h (List.mem_map.mpr ⟨q, hq, hqi⟩)
  rw [h1]
  rfl

theorem assoc_lookup_getD : ∀ (ps : List (Nat × Nat)), (ps.map Prod.fst).Nodup →
    (ps.map Prod.fst).map (fun k => (lookupId ps k).getD 0) = ps.map Prod.snd := by
  intro ps
  induction ps with
  | nil => intro _; simp
  | cons q rest ih =>
    intro h
    obtain ⟨k, v⟩ := q
    simp only [List.map_cons] at h ⊢
    have hk : k ∉ rest.map Prod.fst := (List.nodup_cons.mp h).1
    rw [lookupId_cons_self]
    simp only [Option.getD_some]
    congr 1
    have : ∀ x ∈ rest.map Prod.fst, (lookupId ((k, v) :: rest) x).getD 0 = (lookupId rest x).getD 0 := by
      intro x hx
      have hxk : x ≠ k := fun hxx => hk (hxx ▸ hx)
      rw [lookupId_cons_ne hxk]
    rw [List.map_congr_left this]
    exact ih (List.nodup_cons.mp h).2

/-! ## Characterizing the two renumbering passes -/

theorem buildMapping_lookup (refs : List Reference) :
    ∀ (co : List Nat) (nid : Nat), co.Nodup →
    (∀ i ∈ co, (refs.find? (fun r => r.id == i)).isSome) →
    ∀ j, j < co.length →
    lookupId (buildMapping refs co nid).1 (co.getD j 0) = some (nid + j) := by
  intro co
  induction co with
  | nil => intro nid _ _ j hj; simp at hj
  | cons i rest ih =>
    intro nid hnd hlive j hj
    have hi : (refs.find? (fun r => r.id == i)).isSome := hlive i (by simp)
    obtain ⟨r, hr⟩ := Option.isSome_iff_exists.mp hi
    rw [buildMapping, hr]
    cases j with
    | zero =>
      simp only [List.getD_cons_zero]
      rw [lookupId_cons_self]
      simp
    | succ j =>
      simp only [List.getD_cons_succ]
      have hjr : j < rest.length := by simp at hj; omega
      have hmem : rest.getD j 0 ∈ rest := by
        rw [List.getD_eq_getElem _ _ hjr]
        exact List.getElem_mem hjr
      have hne : rest.getD j 0 ≠ i := by
        intro hx
        exact (List.nodup_cons.mp hnd).1 (hx ▸ hmem)
      rw [lookupId_cons_ne hne]
      rw [ih (nid + 1) (List.nodup_cons.mp hnd).2 (fun x hx => hlive x (by simp [hx])) j hjr]
      congr 1
      omega

theorem buildMapping_keys (refs : List Reference) :
    ∀ (co : List Nat) (nid : Nat),
    (buildMapping refs co nid).1.map Prod.fst =
      co.filter (fun i => (refs.find? (fun r => r.id == i)).isSome) := by
  intro co
  induction co with
  | nil => intro nid; simp [buildMapping]
  | cons i rest ih =>
    intro nid
    rw [buildMapping]
    cases hf : refs.find? (fun r => r.id == i) with
    | some r =>
      simp only [List.map_cons, List.filter_cons]
      rw [hf]
      simp [ih]
    | none =>
      simp only [List.filter_cons]
      rw [hf]
      simp [ih]

theorem buildMapping_vals (refs : List Reference) :
    ∀ (co : List Nat) (nid : Nat),
    (buildMapping refs co nid).1.map Prod.snd =
      List.range' nid ((co.filter (fun i => (refs.find? (fun r => r.id == i)).isSome)).length) := by
  intro co
  induction co with
  | nil => intro nid; simp [buildMapping]
  | cons i rest ih =>
    intro nid
    rw [buildMapping]
    cases hf : refs.find? (fun r => r.id == i) with
    | some r =>
      simp only [List.map_cons, List.filter_cons]
      rw [hf]
      simp [ih, List.range'_succ]
    | none =>
      simp only [List.filter_cons]
      rw [hf]
      simpa using ih nid

theorem buildMapping_next (refs : List Reference) :
    ∀ (co : List Nat) (nid : Nat),
    (buildMapping refs co nid).2.2 =
      nid + (co.filter (fun i => (refs.find? (fun r => r.id == i)).isSome)).length := by
  intro co
  induction co with
  | nil => intro nid; simp [buildMapping]
  | cons i rest ih =>
    intro nid
    rw [buildMapping]
    cases hf : refs.find? (fun r => r.id == i) with
    | some r =>
      simp only [List.filter_cons]
      rw [hf]
      rw [ih]
      simp
      omega
    | none =>
      simp only [List.filter_cons]
      rw [hf]
      simpa using ih nid

theorem buildUncited_keys (co : List Nat) :
    ∀ (refs : List Reference) (nid : Nat),
    (buildUncited co refs nid).1.map Prod.fst =
      (refs.filter (fun r => r.id ∉ co)).map (fun r => r.id) := by
  intro refs
  induction refs with
  | nil => intro nid; simp [buildUncited]
  | cons r rest ih =>
    intro nid
    rw [buildUncited]
    by_cases hr : r.id ∈ co
    · rw [if_pos hr]
      simp only [List.filter_cons]
      simp [hr, ih]
    · rw [if_neg hr]
      simp only [List.filter_cons]
      simp [hr, ih]

theorem buildUncited_vals (co : List Nat) :
    ∀ (refs : List Reference) (nid : Nat),
    (buildUncited co refs nid).1.map Prod.snd =
      List.range' nid ((refs.filter (fun r => r.id ∉ co)).length) := by
  intro refs
  induction refs with
  | nil => intro nid; simp [buildUncited]
  | cons r rest ih =>
    intro nid
    rw [buildUncited]
    by_cases hr : r.id ∈ co
    · rw [if_pos hr]
      simp only [List.filter_cons]
      simp [hr, ih]
    · rw [if_neg hr]
      simp only [List.filter_cons]
      simp [hr, ih, List.range'_succ]

/-! ## The cited-and-live ids seen from both sides -/

theorem cited_filter_perm (rm : RefManager) (co : List Nat)
    (hco : co.Nodup) (hnd : (rm.references.map (fun r => r.id)).Nodup) :
    (co.filter (fun i => (rm.references.find? (fun r => r.id == i)).isSome)).Perm
      ((rm.references.filter (fun r => r.id ∈ co)).map (fun r => r.id)) := by
  have h1 : (co.filter (fun i => (rm.references.find? (fun r => r.id == i)).isSome)).Nodup :=
    hco.filter _
  have hmapfil : (rm.references.filter (fun r => r.id ∈ co)).map (fun r => r.id) =
      (rm.references.map (fun r => r.id)).filter (fun i => i ∈ co) := by
    induction rm.references with
    | nil => simp
    | cons r rest ih =>
      simp only [List.filter_cons, List.map_cons]
      by_cases hr : r.id ∈ co
      · simp [hr, ih]
      · simp [hr, ih]
  have h2 : ((rm.references.filter (fun r => r.id ∈ co)).map (fun r => r.id)).Nodup := by
    rw [hmapfil]
    exact hnd.filter _
  refine List.perm_of_nodup_nodup_toFinset_eq h1 h2 ?_
  ext x
  simp only [List.mem_toFinset, List.mem_filter, hmapfil, List.mem_map]
  constructor
  · rintro ⟨hxco, hfind⟩
    have := List.find?_isSome.mp hfind
    obtain ⟨r, hr, hrx⟩ := this
    simp at hrx
    refine ⟨⟨r, hr, hrx⟩, by simp [hxco]⟩
  · rintro ⟨⟨r, hr, hrx⟩, hxco⟩
    simp at hxco
    refine ⟨hxco, ?_⟩
    rw [List.find?_isSome]
    exact ⟨r, hr, by simp [hrx]⟩

/-! ## Unfolding the reorder operation when sections are present -/

theorem reorder_fst (rm : RefManager) (sections : List (String × String)) (hs : sections ≠ []) :
    (reorder_references_by_citation rm sections).1 =
      some ((buildMapping rm.references (scanCitationOrder sections) 1).1 ++
            (buildUncited (scanCitationOrder sections) rm.references
              (buildMapping rm.references (scanCitationOrder sections) 1).2.2).1) := by
  rw [reorder_references_by_citation, if_neg (by simpa [List.isEmpty_iff] using hs)]

theorem reorder_snd (rm : RefManager) (sections : List (String × String)) (hs : sections ≠ []) :
    (reorder_references_by_citation rm sections).2 =
      { references :=
          (buildMapping rm.references (scanCitationOrder sections) 1).2.1 ++
          (buildUncited (scanCitationOrder sections) rm.references
            (buildMapping rm.references (scanCitationOrder sections) 1).2.2).2.1,
        citations := rm.citations.map (fun p => (p.1, p.2.filterMap (lookupId
          ((buildMapping rm.references (scanCitationOrder sections) 1).1 ++
           (buildUncited (scanCitationOrder sections) rm.references
             (buildMapping rm.references (scanCitationOrder sections) 1).2.2).1)))),
        citation_order := rm.citation_order.filterMap (lookupId
          ((buildMapping rm.references (scanCitationOrder sections) 1).1 ++
           (buildUncited (scanCitationOrder sections) rm.references
             (buildMapping rm.references (scanCitationOrder sections) 1).2.2).1)) } := by
  rw [reorder_references_by_citation, if_neg (by simpa [List.isEmpty_iff] using hs)]

/-! ## Small helpers for the degenerate reorder cases -/

theorem buildMapping_nil_refs : ∀ (co : List Nat) (nid : Nat),
    buildMapping [] co nid = ([], [], nid) := by
  intro co
  induction co with
  | nil => intro nid; rfl
  | cons i rest ih =>
    intro nid
    rw [buildMapping]
    simp only [List.find?_nil]
    exact ih nid

theorem filterMap_lookupId_nil : ∀ (l : List Nat), l.filterMap (lookupId []) = [] := by
  intro l
  induction l with
  | nil => rfl
  | cons i rest ih =>
    rw [List.filterMap_cons]
    have : lookupId [] i = none := rfl
    rw [this, ih]

/-! ## Claim theorems -/

/-- Claim C5 (code bug): reference ids are assigned as
`len(self.references) + 1`, not `max(existing ids) + 1`.  After adding
three references and removing the one with id 2, the next added reference
receives id 3, which is already the id of a live reference, so ids are
reused after a deletion and are no longer unique. -/
theorem C5_id_reuse_after_deletion :
    (add_manual_reference c5Step4 "Davi Elias" "Fourth title" "Journal" "2023").1 = some 3 ∧
    ((add_manual_reference c5Step4 "Davi Elias" "Fourth title" "Journal" "2023").2.references.map
      (fun r => r.id)) = [1, 3, 3] ∧
    ¬ (((add_manual_reference c5Step4 "Davi Elias" "Fourth title" "Journal" "2023").2.references.map
      (fun r => r.id)).Nodup) := by
  refine ⟨by decide, by decide, by decide⟩

/-- Claim C6 (counterexample): removing an id with no live reference
returns `true`, not `false` as the claim states. -/
theorem C6_remove_absent_returns_true :
    rmEmpty.references = [] ∧ (remove_reference rmEmpty 7).1 = true := by
  exact ⟨rfl, rfl⟩

/-- Claim C6 (amended): `remove_reference` always returns `true`, whether
or not a reference with the id exists; it removes exactly the references
carrying that id. -/
theorem C6_remove_always_true (rm : RefManager) (ref_id : Nat) :
    (remove_reference rm ref_id).1 = true ∧
    ∀ r : Reference,
      (r ∈ (remove_reference rm ref_id).2.references ↔ r ∈ rm.references ∧ r.id ≠ ref_id) := by
  refine ⟨rfl, ?_⟩
  intro r
  simp [remove_reference, List.mem_filter]

/-- Claim C7 (counterexample): a token with duplicate ids is not
deduplicated on rewrite: `[2,2]` is re-emitted as `[2,2]`, with the mapped
id 2 listed twice rather than exactly once. -/
theorem C7_duplicates_not_deduplicated :
    update_citations_in_text [("S", "see [2,2]")] [(2, 2)] = [("S", "see [2,2]")] ∧
    update_citations_in_text [("S", "see [2,2]")] [(2, 2)] ≠ [("S", "see [2]")] := by
  refine ⟨by decide, by decide⟩

/-- Claim C7 (amended): the rewrite of a token maps every listed id
occurrence through the mapping and sorts ascending, preserving
multiplicities (the emitted id list is a permutation of the mapped ids and
has the same length as the original list, so duplicates are kept). -/
theorem C7_duplicates_preserved_sorted (m : List (Nat × Nat)) (ref_ids : List Nat) :
    (replace_citation m ref_ids).length = ref_ids.length ∧
    List.Sorted (· ≤ ·) (replace_citation m ref_ids) ∧
    (replace_citation m ref_ids).Perm (ref_ids.map (mapId m)) := by
  refine ⟨?_, sortIds_sorted _, sortIds_perm _⟩
  rw [replace_citation, sortIds_length, List.length_map]

/-- Claim C10: `add_citation` records a citation without checking that a
live reference with that id exists, and `get_citation_summary` computes
`uncited_references` as an integer difference, so a single phantom
citation on an empty store yields `uncited_references = -1`. -/
theorem C10_phantom_citation_negative_uncited :
    (add_citation rmEmpty "Introdução" 5).references = [] ∧
    (add_citation rmEmpty "Introdução" 5).citations = [("Introdução", [5])] ∧
    (get_citation_summary (add_citation rmEmpty "Introdução" 5)).uncited_references = -1 := by
  refine ⟨rfl, by decide, by decide⟩

/-- Claim C9 (counterexample): with a non-empty sections map, no live
references, and a citation list holding a phantom id, reorder filters the
citation lists through the empty mapping and so empties them, changing the
stored state rather than leaving it unchanged. -/
theorem C9_reorder_drops_phantom_citations :
    (reorder_references_by_citation rmPhantom [("X", "hi")]).1 = some [] ∧
    (reorder_references_by_citation rmPhantom [("X", "hi")]).2.citations = [("S", [])] ∧
    (reorder_references_by_citation rmPhantom [("X", "hi")]).2 ≠ rmPhantom := by
  refine ⟨by decide, by decide, by decide⟩

/-- Claim C9 (amended): with an empty sections map, reorder is a complete
no-op returning `none`.  With a non-empty sections map and no references
it returns the empty mapping and leaves the (empty) reference list
unchanged, but every id is filtered out of the section citation lists and
the global citation order. -/
theorem C9_reorder_empty_noop :
    (∀ rm : RefManager, reorder_references_by_citation rm [] = (none, rm)) ∧
    (∀ (rm : RefManager) (sections : List (String × String)), sections ≠ [] →
      rm.references = [] →
      (reorder_references_by_citation rm sections).1 = some [] ∧
      (reorder_references_by_citation rm sections).2.references = [] ∧
      (reorder_references_by_citation rm sections).2.citations =
        rm.citations.map (fun p => (p.1, ([] : List Nat))) ∧
      (reorder_references_by_citation rm sections).2.citation_order = []) := by
  constructor
  · intro rm
    rw [reorder_references_by_citation]
    simp
  · intro rm sections hs hrefs
    have hbm : buildMapping rm.references (scanCitationOrder sections) 1 = ([], [], 1) := by
      rw [hrefs]
      exact buildMapping_nil_refs _ 1
    have hbu : buildUncited (scanCitationOrder sections) rm.references 1 = ([], [], 1) := by
      rw [hrefs]
      rfl
    refine ⟨?_, ?_, ?_, ?_⟩
    · rw [reorder_fst rm sections hs, hbm, hbu]
      rfl
    · rw [reorder_snd rm sections hs, hbm, hbu]
      simp [hrefs]
    · rw [reorder_snd rm sections hs, hbm, hbu]
      simp only [List.nil_append]
      congr 1
      funext p
      rw [filterMap_lookupId_nil]
    · rw [reorder_snd rm sections hs, hbm, hbu]
      simp only [List.nil_append]
      exact filterMap_lookupId_nil _

/-- Claim C9 (witness): the amended statement applied to the phantom
manager and a concrete non-empty sections map. -/
theorem C9_reorder_empty_noop_witness :
    (reorder_references_by_citation rmPhantom [("X", "hi")]).1 = some [] ∧
    (reorder_references_by_citation rmPhantom [("X", "hi")]).2.citation_order = [] :=
  ⟨(C9_reorder_empty_noop.2 rmPhantom [("X", "hi")] (by decide) rfl).1,
   (C9_reorder_empty_noop.2 rmPhantom [("X", "hi")] (by decide) rfl).2.2.2⟩

/-! ## Non-emptiness of the formatted string -/

theorem joinWith_length_ge (sep : String) :
    ∀ (l : List String), ∀ x ∈ l, x.length ≤ (joinWith sep l).length := by
  intro l
  induction l with
  | nil => intro x hx; simp at hx
  | cons s rest ih =>
    intro x hx
    cases rest with
    | nil =>
      simp at hx
      subst hx
      simp [joinWith]
    | cons t rest' =>
      have hj : joinWith sep (s :: t :: rest') = s ++ sep ++ joinWith sep (t :: rest') := rfl
      rw [hj]
      rcases List.mem_cons.mp hx with rfl | hx'
      · rw [String.length_append, String.length_append]
        omega
      · have := ih x hx'
        rw [String.length_append, String.length_append]
        omega

theorem joinWith_ne_empty (sep : String) (l : List String) (x : String)
    (hx : x ∈ l) (hne : x ≠ "") : joinWith sep l ≠ "" := by
  intro h
  have h1 := joinWith_length_ge sep l x hx
  rw [h] at h1
  have h2 : x.length = 0 := by
    have : ("" : String).length = 0 := rfl
    omega
  exact hne (by
    cases x with
    | mk data =>
      cases data with
      | nil => rfl
      | cons c cs => simp [String.length] at h2)

theorem format_manual_vancouver_ne_empty (authors : List String)
    {title : String} (journal year volume issue pages doi : String)
    (ht : title ≠ "") :
    format_manual_vancouver authors title journal year volume issue pages doi ≠ "" := by
  simp only [format_manual_vancouver]
  refine joinWith_ne_empty " " _ (title ++ ".") ?_ ?_
  · simp [ht]
    split_ifs <;> simp
  · intro hcon
    have : (title ++ ".").length = ("" : String).length := by rw [hcon]
    rw [String.length_append] at this
    have hdot : ("." : String).length = 1 := rfl
    have hemp : ("" : String).length = 0 := rfl
    omega

/-- Claim C8: `add_manual_reference` fails with no id and an unchanged
store whenever any of the required fields authors, title, journal, year is
empty (failure is surfaced as `none`, distinct from a `some` id on
success); when all four are non-empty it appends exactly one reference
with a non-empty formatted string and returns its id. -/
theorem C8_add_manual_validation (rm : RefManager)
    (authors title journal year volume issue pages doi : String) :
    ((authors = "" ∨ title = "" ∨ journal = "" ∨ year = "") →
      add_manual_reference rm authors title journal year volume issue pages doi = (none, rm)) ∧
    (authors ≠ "" → title ≠ "" → journal ≠ "" → year ≠ "" →
      ∃ ref : Reference,
        add_manual_reference rm authors title journal year volume issue pages doi =
          (some (rm.references.length + 1), { rm with references := rm.references ++ [ref] }) ∧
        ref.id = rm.references.length + 1 ∧ ref.formatted ≠ "") := by
  constructor
  · intro h
    rw [add_manual_reference, if_pos h]
  · intro ha ht hj hy
    rw [add_manual_reference, if_neg (by simp [ha, ht, hj, hy])]
    refine ⟨{ id := rm.references.length + 1,
              formatted := format_manual_vancouver
                (((splitAuthors authors).map pyStrip).filter (fun a => a ≠ ""))
                title journal year volume issue pages doi,
              doi := doi, source_type := "manual" }, rfl, rfl, ?_⟩
    exact format_manual_vancouver_ne_empty _ journal year volume issue pages doi ht

/-- Claim C8 (witness): an empty title is rejected leaving the store
unchanged; with all required fields present a reference is created. -/
theorem C8_add_manual_validation_witness :
    add_manual_reference rmEmpty "Ana Silva" "" "Journal" "2020" = (none, rmEmpty) ∧
    ∃ ref : Reference,
      add_manual_reference rmEmpty "Ana Silva" "Good title" "Journal" "2020" =
        (some (rmEmpty.references.length + 1), { rmEmpty with references := rmEmpty.references ++ [ref] }) ∧
      ref.id = rmEmpty.references.length + 1 ∧ ref.formatted ≠ "" :=
  ⟨(C8_add_manual_validation rmEmpty "Ana Silva" "" "Journal" "2020" "" "" "" "").1
      (Or.inr (Or.inl rfl)),
   (C8_add_manual_validation rmEmpty "Ana Silva" "Good title" "Journal" "2020" "" "" "" "").2
      (by decide) (by decide) (by decide) (by decide)⟩

/-- Claim C3: `update_citations_in_text` rewrites each section text by one
left-to-right pass; every citation token (an arbitrary bracketed list of
digit groups) is replaced by the bracketed, comma-joined, ascending sort
of its ids mapped through the id mapping (ids absent from the mapping pass
through unchanged); each character other than a token — including the
malformed brackets `[abc]` and `[1,]`, with anything following them — is
emitted byte for byte unchanged. -/
theorem C3_update_citations_spec :
    (∀ (m : List (Nat × Nat)) (g : List Char) (gs : List (List Char)) (rest : List Char),
      (∀ x ∈ g :: gs, x ≠ [] ∧ ∀ c ∈ x, c.isDigit = true) →
      rewriteChars m (tokenChars (g :: gs) ++ rest) =
        renderIds (replace_citation m ((g :: gs).map parseNat)) ++ rewriteChars m rest) ∧
    (∀ (m : List (Nat × Nat)) (c : Char) (cs : List Char), c ≠ '[' →
      rewriteChars m (c :: cs) = c :: rewriteChars m cs) ∧
    (∀ (m : List (Nat × Nat)) (i : Nat), lookupId m i = none → mapId m i = i) ∧
    (∀ (m : List (Nat × Nat)) (rest : List Char),
      rewriteChars m ("[abc]".data ++ rest) = "[abc]".data ++ rewriteChars m rest) ∧
    (∀ (m : List (Nat × Nat)) (rest : List Char),
      rewriteChars m ("[1,]".data ++ rest) = "[1,]".data ++ rewriteChars m rest) ∧
    (∀ (m : List (Nat × Nat)) (sections : List (String × String)),
      update_citations_in_text sections m =
        sections.map (fun p => (p.1, String.mk (rewriteChars m p.2.data)))) := by
  refine ⟨?_, ?_, ?_, ?_, ?_, ?_⟩
  · intro m g gs rest hgs
    exact rewriteChars_token_groups m hgs rest
  · intro m c cs hc
    exact rewriteChars_cons_ne m hc cs
  · intro m i h
    rw [mapId, h]
    rfl
  · intro m rest
    have h1 : matchToken ('a' :: 'b' :: 'c' :: ']' :: rest) = none := rfl
    show rewriteChars m ('[' :: 'a' :: 'b' :: 'c' :: ']' :: rest) =
      '[' :: 'a' :: 'b' :: 'c' :: ']' :: rewriteChars m rest
    rw [rewriteChars_nomatch m h1]
    have h2 : ('a' :: 'b' :: 'c' :: ']' :: rest) = ['a', 'b', 'c', ']'] ++ rest := rfl
    rw [h2, rewriteChars_skip m (by decide) rest]
    rfl
  · intro m rest
    have h1 : matchToken ('1' :: ',' :: ']' :: rest) = none := rfl
    show rewriteChars m ('[' :: '1' :: ',' :: ']' :: rest) =
      '[' :: '1' :: ',' :: ']' :: rewriteChars m rest
    rw [rewriteChars_nomatch m h1]
    have h2 : ('1' :: ',' :: ']' :: rest) = ['1', ',', ']'] ++ rest := rfl
    rw [h2, rewriteChars_skip m (by decide) rest]
    rfl
  · intro m sections
    rfl

/-- Claim C3 (witness): the token replacement and character pass-through
applied at concrete inputs. -/
theorem C3_update_citations_spec_witness :
    rewriteChars [(1, 2)] (tokenChars [['1']] ++ []) =
      renderIds (replace_citation [(1, 2)] ([['1']].map parseNat)) ++ rewriteChars [(1, 2)] [] ∧
    rewriteChars [(1, 2)] ('x' :: []) = 'x' :: rewriteChars [(1, 2)] [] ∧
    rewriteChars [(1, 2)] ("[abc]".data ++ ['y']) = "[abc]".data ++ rewriteChars [(1, 2)] ['y'] :=
  ⟨C3_update_citations_spec.1 [(1, 2)] ['1'] [] [] (by decide),
   C3_update_citations_spec.2.1 [(1, 2)] 'x' [] (by decide),
   C3_update_citations_spec.2.2.2.1 [(1, 2)] ['y']⟩

/-- Claim C4 (counterexample): the round trip is not the identity on a
text whose token lists its ids out of ascending order, even though every
cited id is a key of the mapping and the second mapping inverts the first
(here both are the identity on \x7b1, 2\x7d): `see [2,1]` comes back as
`see [1,2]`. -/
theorem C4_roundtrip_counterexample :
    update_citations_in_text
        (update_citations_in_text [("S", "see [2,1]")] [(1, 1), (2, 2)]) [(1, 1), (2, 2)] =
      [("S", "see [1,2]")] ∧
    update_citations_in_text
        (update_citations_in_text [("S", "see [2,1]")] [(1, 1), (2, 2)]) [(1, 1), (2, 2)] ≠
      [("S", "see [2,1]")] := by
  refine ⟨by decide, by decide⟩

/-- Claim C4 (amended): for texts whose citation tokens are in normalized
form — each token lists ids belonging to the mapping's key set, in
ascending order, written canonically without leading zeros — applying
`update_citations_in_text` with a mapping and then with its inverse
restores the sections byte for byte. -/
theorem C4_roundtrip_normalized (m1 m2 : List (Nat × Nat))
    (sections : List (String × String))
    (hinv : ∀ a ∈ m1.map Prod.fst, mapId m2 (mapId m1 a) = a)
    (hnorm : ∀ p ∈ sections, normChars (m1.map Prod.fst) p.2.data = true) :
    update_citations_in_text (update_citations_in_text sections m1) m2 = sections := by
  rw [update_citations_in_text, update_citations_in_text, List.map_map]
  have : ∀ p ∈ sections,
      ((fun p => (p.1, String.mk (rewriteChars m2 p.2.data))) ∘
       (fun p => (p.1, String.mk (rewriteChars m1 p.2.data)))) p = id p := by
    intro p hp
    simp only [Function.comp, id]
    rw [rewrite_roundtrip_aux p.2.data.length p.2.data le_rfl m1 m2 hinv (hnorm p hp)]
  rw [List.map_congr_left this, List.map_id]

/-- Claim C4 (witness): the amended round trip applied to a normalized
text and a concrete mapping and its inverse. -/
theorem C4_roundtrip_normalized_witness :
    update_citations_in_text
        (update_citations_in_text [("S", "see [1,2] and [2]")] [(1, 5), (2, 7)]) [(5, 1), (7, 2)] =
      [("S", "see [1,2] and [2]")] :=
  C4_roundtrip_normalized [(1, 5), (2, 7)] [(5, 1), (7, 2)] [("S", "see [1,2] and [2]")]
    (by decide) (by decide)

/-- Claim C1: when every cited id has a live reference (and the sections
map is non-empty), the mapping returned by
`reorder_references_by_citation` sends the j-th id of the text-scan
first-appearance order (sections scanned in canonical order — the fixed
Portuguese list first, then remaining sections in given order — ids taken
in listed pre-sort order within a token) to the new id j+1, for every
position j; and on the scenario store and sections the scan order is
[3, 1, 2], the returned mapping is 3↦1, 1↦2, 2↦3, and the rewritten texts
are as the claim states. -/
theorem C1_reorder_first_appearance :
    (∀ (rm : RefManager) (sections : List (String × String)), sections ≠ [] →
      (∀ i ∈ scanCitationOrder sections,
        (rm.references.find? (fun r => r.id == i)).isSome) →
      ∀ j, j < (scanCitationOrder sections).length →
      lookupId ((reorder_references_by_citation rm sections).1.getD [])
        ((scanCitationOrder sections).getD j 0) = some (j + 1)) ∧
    scanCitationOrder sectionsScenario = [3, 1, 2] ∧
    (reorder_references_by_citation rmThree sectionsScenario).1 =
      some [(3, 1), (1, 2), (2, 3)] ∧
    update_citations_in_text sectionsScenario [(3, 1), (1, 2), (2, 3)] =
      [("Intro", "finding [1] and [1,2]"), ("Methods", "see [3]")] := by
  refine ⟨?_, by decide, by decide, by decide⟩
  intro rm sections hs hlive j hj
  rw [reorder_fst rm sections hs]
  simp only [Option.getD_some]
  have hlk := buildMapping_lookup rm.references (scanCitationOrder sections) 1
    (scanCitationOrder_nodup sections) hlive j hj
  rw [lookupId_append_left hlk]
  congr 1
  omega

/-- Claim C1 (witness): the general first-appearance property applied at
position 0 of the scenario. -/
theorem C1_reorder_first_appearance_witness :
    lookupId ((reorder_references_by_citation rmThree sectionsScenario).1.getD [])
      ((scanCitationOrder sectionsScenario).getD 0 0) = some 1 :=
  C1_reorder_first_appearance.1 rmThree sectionsScenario (by decide) (by decide) 0 (by decide)

/-- Mapping ids commutes with filtering by a predicate on ids. -/
theorem map_id_filter (refs : List Reference) (p : Nat → Bool) :
    (refs.filter (fun r => p r.id)).map (fun r => r.id) =
      (refs.map (fun r => r.id)).filter p := by
  induction refs with
  | nil => simp
  | cons r rest ih =>
    simp only [List.filter_cons, List.map_cons]
    by_cases hr : p r.id = true
    · simp [hr, ih]
    · simp [hr, ih]

/-- Claim C2: for a non-empty sections map and pairwise distinct reference
ids, the returned id mapping is a total bijection from the existing
reference ids onto 1..n: its keys are a permutation of the reference ids,
its values are exactly the list 1..n, and the references never cited in
the scanned text receive the values k+1..n in their pre-reorder relative
order (k = number of distinct cited ids having a live reference). -/
theorem C2_reorder_bijection (rm : RefManager) (sections : List (String × String))
    (hs : sections ≠ []) (hnd : (rm.references.map (fun r => r.id)).Nodup) :
    (((reorder_references_by_citation rm sections).1.getD []).map Prod.fst).Perm
      (rm.references.map (fun r => r.id)) ∧
    ((reorder_references_by_citation rm sections).1.getD []).map Prod.snd =
      List.range' 1 rm.references.length ∧
    ((rm.references.filter (fun r => r.id ∉ scanCitationOrder sections)).map
      (fun r => (lookupId ((reorder_references_by_citation rm sections).1.getD []) r.id).getD 0)) =
      List.range'
        (((scanCitationOrder sections).filter
          (fun i => (rm.references.find? (fun r => r.id == i)).isSome)).length + 1)
        (rm.references.length -
         ((scanCitationOrder sections).filter
           (fun i => (rm.references.find? (fun r => r.id == i)).isSome)).length) := by
  have hco := scanCitationOrder_nodup sections
  have hperm := cited_filter_perm rm (scanCitationOrder sections) hco hnd
  have hkeys1 := buildMapping_keys rm.references (scanCitationOrder sections) 1
  have hvals1 := buildMapping_vals rm.references (scanCitationOrder sections) 1
  have hnext := buildMapping_next rm.references (scanCitationOrder sections) 1
  have hkeys2 := buildUncited_keys (scanCitationOrder sections) rm.references
    (buildMapping rm.references (scanCitationOrder sections) 1).2.2
  have hvals2 := buildUncited_vals (scanCitationOrder sections) rm.references
    (buildMapping rm.references (scanCitationOrder sections) 1).2.2
  have hfilneg : rm.references.filter (fun r => r.id ∉ scanCitationOrder sections) =
      rm.references.filter (fun r => !(decide (r.id ∈ scanCitationOrder sections))) := by
    apply List.filter_congr
    intro r _
    simp [decide_not]
  have hsplit := List.filter_append_perm
    (fun r => decide (r.id ∈ scanCitationOrder sections)) rm.references
  have hint : ((scanCitationOrder sections).filter
      (fun i => (rm.references.find? (fun r => r.id == i)).isSome)).length =
      (rm.references.filter (fun r => r.id ∈ scanCitationOrder sections)).length := by
    have := hperm.length_eq
    simpa using this
  have hsum : (rm.references.filter (fun r => r.id ∈ scanCitationOrder sections)).length +
      (rm.references.filter (fun r => r.id ∉ scanCitationOrder sections)).length =
      rm.references.length := by
    rw [hfilneg]
    have := hsplit.length_eq
    simpa using this
  have hmapperm : (rm.references.map (fun r => r.id)).Perm
      ((rm.references.filter (fun r => r.id ∈ scanCitationOrder sections)).map (fun r => r.id) ++
       (rm.references.filter (fun r => r.id ∉ scanCitationOrder sections)).map (fun r => r.id)) := by
    rw [hfilneg, ← List.map_append]
    exact (hsplit.map (fun r => r.id)).symm
  have hnodup2 : ((buildUncited (scanCitationOrder sections) rm.references
      (buildMapping rm.references (scanCitationOrder sections) 1).2.2).1.map Prod.fst).Nodup := by
    rw [hkeys2, map_id_filter rm.references (fun i => decide (i ∉ scanCitationOrder sections))]
    exact hnd.filter _
  have hra : ∀ a b : Nat, List.range' 1 a ++ List.range' (1 + a) b = List.range' 1 (a + b) := by
    intro a b
    have h := List.range'_append 1 a b 1
    simp only [one_mul] at h
    rw [Nat.add_comm a b]
    exact h
  refine ⟨?_, ?_, ?_⟩
  · rw [reorder_fst rm sections hs]
    simp only [Option.getD_some, List.map_append]
    rw [hkeys1, hkeys2]
    refine (hperm.append (List.Perm.refl _)).trans ?_
    exact hmapperm.symm
  · rw [reorder_fst rm sections hs]
    simp only [Option.getD_some, List.map_append]
    rw [hvals1, hvals2, hnext, hra]
    congr 1
    omega
  · rw [reorder_fst rm sections hs]
    simp only [Option.getD_some]
    have hstep : (rm.references.filter (fun r => r.id ∉ scanCitationOrder sections)).map
        (fun r => (lookupId ((buildMapping rm.references (scanCitationOrder sections) 1).1 ++
          (buildUncited (scanCitationOrder sections) rm.references
            (buildMapping rm.references (scanCitationOrder sections) 1).2.2).1) r.id).getD 0) =
        (rm.references.filter (fun r => r.id ∉ scanCitationOrder sections)).map
        (fun r => (lookupId ((buildUncited (scanCitationOrder sections) rm.references
          (buildMapping rm.references (scanCitationOrder sections) 1).2.2).1) r.id).getD 0) := by
      apply List.map_congr_left
      intro r hr
      have hrnot : r.id ∉ scanCitationOrder sections := by
        have := (List.mem_filter.mp hr).2
        simpa using this
      have hnotm1 : r.id ∉ (buildMapping rm.references (scanCitationOrder sections) 1).1.map Prod.fst := by
        rw [hkeys1]
        intro hmem
        exact hrnot (List.mem_of_mem_filter hmem)
      rw [lookupId_append_right hnotm1]
    rw [hstep]
    have hmm : (rm.references.filter (fun r => r.id ∉ scanCitationOrder sections)).map
        (fun r => (lookupId ((buildUncited (scanCitationOrder sections) rm.references
          (buildMapping rm.references (scanCitationOrder sections) 1).2.2).1) r.id).getD 0) =
        ((buildUncited (scanCitationOrder sections) rm.references
          (buildMapping rm.references (scanCitationOrder sections) 1).2.2).1.map Prod.fst).map
        (fun i => (lookupId ((buildUncited (scanCitationOrder sections) rm.references
          (buildMapping rm.references (scanCitationOrder sections) 1).2.2).1) i).getD 0) := by
      rw [hkeys2, List.map_map]
      rfl
    rw [hmm, assoc_lookup_getD _ hnodup2, hvals2, hnext]
    congr 1 <;> omega

/-- Claim C2 (witness): the bijection statement applied to the scenario
store and sections. -/
theorem C2_reorder_bijection_witness :
    (((reorder_references_by_citation rmThree sectionsScenario).1.getD []).map Prod.fst).Perm
      (rmThree.references.map (fun r => r.id)) ∧
    ((reorder_references_by_citation rmThree sectionsScenario).1.getD []).map Prod.snd =
      List.range' 1 rmThree.references.length ∧
    ((rmThree.references.filter (fun r => r.id ∉ scanCitationOrder sectionsScenario)).map
      (fun r => (lookupId ((reorder_references_by_citation rmThree sectionsScenario).1.getD []) r.id).getD 0)) =
      List.range'
        (((scanCitationOrder sectionsScenario).filter
          (fun i => (rmThree.references.find? (fun r => r.id == i)).isSome)).length + 1)
        (rmThree.references.length -
         ((scanCitationOrder sectionsScenario).filter
           (fun i => (rmThree.references.find? (fun r => r.id == i)).isSome)).length) :=
  C2_reorder_bijection rmThree sectionsScenario (by decide) (by decide)
